import Mathlib

/-!
Verification of the oktaws AWS SSO client (`src/oktaws/src/aws/sso.rs`).

The Rust module is embedded shallowly:

* JSON response bodies are modeled by the inductive `Json`; a body that is
  not valid JSON is modeled as `Option Json` being `none`.
* `serde` decoding of each response envelope is an explicit function
  `Json → Option _`, faithful to serde semantics: required fields must be
  present with the right type, `Option` fields treat a missing key or
  `null` as `none`, unknown fields are ignored (serde's default).
* Each network operation of `Client` becomes a function from the HTTP
  response the server would return (status code plus decoded-or-not body)
  to `Except OpError _`; transport failures happen upstream of these
  functions and are not modeled further.
* The requests the operations build (URL, headers, query, form) are
  captured by companion `_request` functions so that header properties can
  be stated.
* The two `regex` patterns of the name parser, `\((.+)\)` and `^(\d+)`,
  are implemented by executable functions with the crate's leftmost-first
  greedy semantics, where `.` matches any character except a newline.
-/

namespace Oktaws

/-- JSON values, as produced by `serde_json` parsing.  Numbers are modeled
as integers, which covers every field the envelopes use (the only numeric
field, `expiration`, is a `u64`). -/
inductive Json where
  | null : Json
  | bool (b : Bool) : Json
  | num (n : Int) : Json
  | str (s : String) : Json
  | arr (elems : List Json) : Json
  | obj (fields : List (String × Json)) : Json

/-- First binding of a key in a JSON object's field list. -/
def lookupField (fields : List (String × Json)) (key : String) : Option Json :=
  match fields with
  | [] => none
  | f :: rest => if f.1 = key then some f.2 else lookupField rest key

/-- Decode a JSON value as a Rust `String` field (serde: must be a JSON string). -/
def Json.asStr : Json → Option String
  | .str s => some s
  | _ => none

/-- Decode a JSON value as a Rust `u64` field (serde: an integer in
`[0, 2^64)`; the bound is written as the literal `18446744073709551616`). -/
def Json.asU64 : Json → Option Nat
  | .num n => if 0 ≤ n ∧ n < 18446744073709551616 then some n.toNat else none
  | _ => none

/-- Required `String` field of an object. -/
def strField (fields : List (String × Json)) (key : String) : Option String :=
  match lookupField fields key with
  | some j => j.asStr
  | none => none

/-- `Option<String>` field of an object: missing key or `null` is `none`,
a string is `some`, anything else is a decode error. -/
def optStrField (fields : List (String × Json)) (key : String) : Option (Option String) :=
  match lookupField fields key with
  | none => some none
  | some .null => some none
  | some (.str s) => some (some s)
  | some _ => none

/-- `Page<T>` envelope returned by the list endpoints
(`#[serde(rename_all = "camelCase")]`). -/
structure Page (α : Type) where
  pagination_token : Option String
  result : List α
deriving DecidableEq

/-- `SearchMetadata` (`#[serde(rename_all = "PascalCase")]`). -/
structure SearchMetadata where
  account_id : String
  account_name : String
  account_email : String
deriving DecidableEq

/-- `AppInstance` (`#[serde(rename_all = "camelCase")]`). -/
structure AppInstance where
  id : String
  name : String
  description : String
  application_id : String
  application_name : String
  icon : String
  search_metadata : Option SearchMetadata
deriving DecidableEq

/-- `Profile` (`#[serde(rename_all = "camelCase")]`). -/
structure Profile where
  id : String
  name : String
  description : String
  url : String
  protocol : String
  relay_state : Option String
deriving DecidableEq

/-- The wire-format credentials struct nested in the credential-exchange
response (`accessKeyId`, `secretAccessKey`, `sessionToken`, `expiration: u64`). -/
structure CredentialsWire where
  access_key_id : String
  secret_access_key : String
  session_token : String
  expiration : Nat
deriving DecidableEq

/-- `std::time::SystemTime`, as a point on the timeline measured in
nanoseconds since the Unix epoch (`UNIX_EPOCH + Duration`). -/
structure SystemTime where
  nanos_since_epoch : Nat
deriving DecidableEq

/-- `aws_credential_types::Credentials` as built by `Credentials::new`:
the five arguments of the constructor. -/
structure AwsCredentials where
  access_key_id : String
  secret_access_key : String
  session_token : Option String
  expires_after : Option SystemTime
  provider_name : String
deriving DecidableEq

/-- The session client: `struct Client { token: String, base_url: String }`. -/
structure Client where
  token : String
  base_url : String
deriving DecidableEq

/-- Error kinds an operation can surface once a response has been received:
`decode` stands for a `serde_json` failure (body not valid JSON, or JSON not
matching the expected envelope). -/
inductive OpError where
  | decode : OpError
deriving DecidableEq

/-- An HTTP response as seen by the client after `send()` succeeds:
the status code and the body, where `none` models a body text that is not
valid JSON. -/
structure HttpResponse where
  status : Nat
  body : Option Json

/-- The request an operation sends: method, URL, headers, query and form
parameters, in the order the code sets them. -/
structure HttpRequest where
  method : String
  url : String
  headers : List (String × String)
  query : List (String × String)
  form : List (String × String)
deriving DecidableEq

/-- Decoder for the `SsoTokenResponse { token: String }` envelope. -/
def decodeSsoTokenResponse (j : Json) : Option String :=
  match j with
  | .obj fields => strField fields "token"
  | _ => none

/-- Decoder for `SearchMetadata`. -/
def decodeSearchMetadata (j : Json) : Option SearchMetadata :=
  match j with
  | .obj fields =>
    match strField fields "AccountId", strField fields "AccountName",
          strField fields "AccountEmail" with
    | some aid, some aname, some amail => some ⟨aid, aname, amail⟩
    | _, _, _ => none
  | _ => none

/-- `Option<SearchMetadata>` field: missing or `null` is `none`. -/
def optSearchMetadataField (fields : List (String × Json)) (key : String) :
    Option (Option SearchMetadata) :=
  match lookupField fields key with
  | none => some none
  | some .null => some none
  | some j =>
    match decodeSearchMetadata j with
    | some m => some (some m)
    | none => none

/-- Decoder for `AppInstance`. -/
def decodeAppInstance (j : Json) : Option AppInstance :=
  match j with
  | .obj fields =>
    match strField fields "id", strField fields "name", strField fields "description",
          strField fields "applicationId", strField fields "applicationName",
          strField fields "icon", optSearchMetadataField fields "searchMetadata" with
    | some i, some n, some d, some ai, some an, some ic, some sm =>
      some ⟨i, n, d, ai, an, ic, sm⟩
    | _, _, _, _, _, _, _ => none
  | _ => none

/-- Decoder for `Profile`. -/
def decodeProfile (j : Json) : Option Profile :=
  match j with
  | .obj fields =>
    match strField fields "id", strField fields "name", strField fields "description",
          strField fields "url", strField fields "protocol",
          optStrField fields "relayState" with
    | some i, some n, some d, some u, some p, some rs =>
      some ⟨i, n, d, u, p, rs⟩
    | _, _, _, _, _, _ => none
  | _ => none

/-- Decoder for the `Page<T>` envelope: `paginationToken` is optional,
`result` is a required array whose every element must decode. -/
def decodePage (dec : Json → Option α) (j : Json) : Option (Page α) :=
  match j with
  | .obj fields =>
    match optStrField fields "paginationToken" with
    | none => none
    | some pt =>
      match lookupField fields "result" with
      | some (.arr elems) =>
        match elems.mapM dec with
        | some xs => some ⟨pt, xs⟩
        | none => none
      | _ => none
  | _ => none

/-- Decoder for the inner wire `Credentials` struct. -/
def decodeCredentialsWire (j : Json) : Option CredentialsWire :=
  match j with
  | .obj fields =>
    match strField fields "accessKeyId", strField fields "secretAccessKey",
          strField fields "sessionToken", lookupField fields "expiration" with
    | some ak, some sk, some st, some ej =>
      match ej.asU64 with
      | some e => some ⟨ak, sk, st, e⟩
      | none => none
    | _, _, _, _ => none
  | _ => none

/-- Decoder for the `RoleCredentials { role_credentials: Credentials }`
envelope (wire key `roleCredentials`). -/
def decodeRoleCredentials (j : Json) : Option CredentialsWire :=
  match j with
  | .obj fields =>
    match lookupField fields "roleCredentials" with
    | some inner => decodeCredentialsWire inner
    | none => none
  | _ => none

/-- `Duration::from_millis(m)` added to `UNIX_EPOCH`, in nanoseconds. -/
def epochPlusMillis (m : Nat) : SystemTime :=
  ⟨m * 1000000⟩

/-- The request `Client::new` sends: `POST {base_url}/auth/sso-token` with
form body `authCode`/`orgId` and no bearer headers. -/
def newRequest (org_id auth_code region : String) : HttpRequest :=
  ⟨"POST", "https://portal.sso." ++ region ++ ".amazonaws.com/auth/sso-token",
    [], [], [("authCode", auth_code), ("orgId", org_id)]⟩

/-- `Client::new`: given the response to the token exchange, parse the body
as `SsoTokenResponse` and build the client.  The HTTP status is never
inspected by the code. -/
def Client.new (org_id auth_code region : String) (resp : HttpResponse) :
    Except OpError Client :=
  let base_url := "https://portal.sso." ++ region ++ ".amazonaws.com"
  match resp.body with
  | none => .error .decode
  | some j =>
    match decodeSsoTokenResponse j with
    | some token => .ok ⟨token, base_url⟩
    | none => .error .decode

/-- The request `Client::app_instances` sends: both bearer-token header
spellings carry the held token. -/
def Client.appInstancesRequest (c : Client) : HttpRequest :=
  ⟨"GET", c.base_url ++ "/instance/appinstances",
    [("x-amz-sso_bearer_token", c.token), ("x-amz-sso-bearer-token", c.token)],
    [], []⟩

/-- `Client::app_instances`: parse the body as `Page<AppInstance>` and
return its `result` field.  The status is never inspected. -/
def Client.app_instances (c : Client) (resp : HttpResponse) :
    Except OpError (List AppInstance) :=
  match resp.body with
  | none => .error .decode
  | some j =>
    match decodePage decodeAppInstance j with
    | some page => .ok page.result
    | none => .error .decode

/-- The request `Client::profiles` sends. -/
def Client.profilesRequest (c : Client) (app_instance_id : String) : HttpRequest :=
  ⟨"GET", c.base_url ++ "/instance/appinstance/" ++ app_instance_id ++ "/profiles",
    [("x-amz-sso_bearer_token", c.token), ("x-amz-sso-bearer-token", c.token)],
    [], []⟩

/-- `Client::profiles`: parse the body as `Page<Profile>` and return its
`result` field. -/
def Client.profiles (c : Client) (resp : HttpResponse) :
    Except OpError (List Profile) :=
  match resp.body with
  | none => .error .decode
  | some j =>
    match decodePage decodeProfile j with
    | some page => .ok page.result
    | none => .error .decode

/-- The request `Client::credentials` sends: query parameters
`account_id`, `role_name`, `debug=true`, plus both bearer headers. -/
def Client.credentialsRequest (c : Client) (account_id role_name : String) : HttpRequest :=
  ⟨"GET", c.base_url ++ "/federation/credentials/",
    [("x-amz-sso_bearer_token", c.token), ("x-amz-sso-bearer-token", c.token)],
    [("account_id", account_id), ("role_name", role_name), ("debug", "true")], []⟩

/-- `Client::credentials`: decode the `RoleCredentials` envelope and build
the `aws_credential_types::Credentials` value exactly as the source does:
session token wrapped in `Some`, expiry `UNIX_EPOCH + from_millis`, fixed
provider name `"oktaws"`. -/
def Client.credentials (c : Client) (account_id role_name : String)
    (resp : HttpResponse) : Except OpError AwsCredentials :=
  match resp.body with
  | none => .error .decode
  | some j =>
    match decodeRoleCredentials j with
    | some rc =>
      .ok ⟨rc.access_key_id, rc.secret_access_key, some rc.session_token,
            some (epochPlusMillis rc.expiration), "oktaws"⟩
    | none => .error .decode

/-- Split a list at the first occurrence of `c`: `some (pre, rest)` with
the list equal to `pre ++ c :: rest` and `c ∉ pre`. -/
def splitAtFirst (c : Char) : List Char → Option (List Char × List Char)
  | [] => none
  | x :: xs =>
    if x = c then some ([], xs)
    else (splitAtFirst c xs).map (fun p => (x :: p.1, p.2))

/-- Split a list at the last occurrence of `c`: `some (pre, rest)` with
the list equal to `pre ++ c :: rest` and `c ∉ rest`. -/
def splitAtLast (c : Char) : List Char → Option (List Char × List Char)
  | [] => none
  | x :: xs =>
    match splitAtLast c xs with
    | some p => some (x :: p.1, p.2)
    | none => if x = c then some ([], xs) else none

/-- One attempt of the pattern `\((.+)\)` at an opening parenthesis: `rest`
is the text after the `(`.  The greedy `.+` consumes within the maximal
newline-free run, then backtracks to the last `)` in that run; the group
must be non-empty. -/
def matchGroupAfterParen (rest : List Char) : Option (List Char) :=
  let run := rest.takeWhile (fun c => c ≠ '\n')
  match splitAtLast ')' run with
  | some mp => if mp.1 = [] then none else some mp.1
  | none => none

/-- The specification-level statement that a parenthesized group starts
right after a `(`: the following text splits as a non-empty newline-free
`mid`, a `)`, and a remainder containing no further `)` before its first
newline.  This is exactly when the attempt of `\((.+)\)` at that `(`
succeeds, with `mid` the greedy capture. -/
def HasGroup (rest : List Char) : Prop :=
  ∃ mid post, rest = mid ++ ')' :: post ∧ mid ≠ [] ∧
    (∀ x ∈ mid, x ≠ '\n') ∧ ')' ∉ post.takeWhile (fun c => c ≠ '\n')

/-- Leftmost-first scan of `\((.+)\)` over the name: try each `(` from the
left, returning the first position where the greedy attempt succeeds. -/
def accountNameCore : List Char → Option (List Char)
  | [] => none
  | c :: rest =>
    if c = '(' then
      match matchGroupAfterParen rest with
      | some mid => some mid
      | none => accountNameCore rest
    else accountNameCore rest

/-- `AppInstance::account_name`: first capture group of `\((.+)\)` over
the name. -/
def AppInstance.account_name (inst : AppInstance) : Option String :=
  (accountNameCore inst.name.toList).map String.mk

/-- The code-point ranges of the Unicode general category Nd (decimal
number), Unicode 15.0: the class the `regex` crate's `\d` matches with its
default `unicode-perl` feature.  63 ranges of ten digits plus the fifty
mathematical digits, 680 code points in all. -/
def ndRanges : List (Nat × Nat) :=
  [(0x0030, 0x0039), (0x0660, 0x0669), (0x06F0, 0x06F9), (0x07C0, 0x07C9),
   (0x0966, 0x096F), (0x09E6, 0x09EF), (0x0A66, 0x0A6F), (0x0AE6, 0x0AEF),
   (0x0B66, 0x0B6F), (0x0BE6, 0x0BEF), (0x0C66, 0x0C6F), (0x0CE6, 0x0CEF),
   (0x0D66, 0x0D6F), (0x0DE6, 0x0DEF), (0x0E50, 0x0E59), (0x0ED0, 0x0ED9),
   (0x0F20, 0x0F29), (0x1040, 0x1049), (0x1090, 0x1099), (0x17E0, 0x17E9),
   (0x1810, 0x1819), (0x1946, 0x194F), (0x19D0, 0x19D9), (0x1A80, 0x1A89),
   (0x1A90, 0x1A99), (0x1B50, 0x1B59), (0x1BB0, 0x1BB9), (0x1C40, 0x1C49),
   (0x1C50, 0x1C59), (0xA620, 0xA629), (0xA8D0, 0xA8D9), (0xA900, 0xA909),
   (0xA9D0, 0xA9D9), (0xA9F0, 0xA9F9), (0xAA50, 0xAA59), (0xABF0, 0xABF9),
   (0xFF10, 0xFF19), (0x104A0, 0x104A9), (0x10D30, 0x10D39),
   (0x11066, 0x1106F), (0x110F0, 0x110F9), (0x11136, 0x1113F),
   (0x111D0, 0x111D9), (0x112F0, 0x112F9), (0x11450, 0x11459),
   (0x114D0, 0x114D9), (0x11650, 0x11659), (0x116C0, 0x116C9),
   (0x11730, 0x11739), (0x118E0, 0x118E9), (0x11950, 0x11959),
   (0x11C50, 0x11C59), (0x11D50, 0x11D59), (0x11DA0, 0x11DA9),
   (0x11F50, 0x11F59), (0x16A60, 0x16A69), (0x16AC0, 0x16AC9),
   (0x16B50, 0x16B59), (0x1D7CE, 0x1D7FF), (0x1E140, 0x1E149),
   (0x1E2F0, 0x1E2F9), (0x1E4F0, 0x1E4F9), (0x1E950, 0x1E959),
   (0x1FBF0, 0x1FBF9)]

/-- `\d` of the regex crate: membership in the Unicode Nd category. -/
def isNd (c : Char) : Bool :=
  ndRanges.any (fun r => r.1 ≤ c.toNat ∧ c.toNat ≤ r.2)

/-- `AppInstance::account_id`: first capture group of `^(\d+)` over the
name: the maximal run of leading decimal digits (`\d` = Unicode Nd), when
non-empty. -/
def AppInstance.account_id (inst : AppInstance) : Option String :=
  if inst.name.toList.takeWhile isNd = [] then none
  else some (String.mk (inst.name.toList.takeWhile isNd))

/-- An `AppInstance` with the given name and fixed other fields, for
concrete test inputs. -/
def mkInst (name : String) : AppInstance :=
  ⟨"inst-id", name, "desc", "app-id", "app-name", "icon-url", none⟩

/-- `splitAtLast` misses on a list not containing the character. -/
theorem splitAtLast_eq_none_of_not_mem (c : Char) (l : List Char) (h : c ∉ l) :
    splitAtLast c l = none := by
  induction l with
  | nil => rfl
  | cons x xs ih =>
    have hx : ¬x = c := fun hxc => h (hxc ▸ List.mem_cons_self x xs)
    have hxs : c ∉ xs := fun hm => h (List.mem_cons_of_mem x hm)
    simp [splitAtLast, ih hxs, hx]

/-- `splitAtLast` on a list presented as `pre ++ c :: rest` with no later
occurrence of `c` splits exactly there. -/
theorem splitAtLast_append (c : Char) (pre rest : List Char) (h : c ∉ rest) :
    splitAtLast c (pre ++ c :: rest) = some (pre, rest) := by
  induction pre with
  | nil =>
    simp [splitAtLast, splitAtLast_eq_none_of_not_mem c rest h]
  | cons x xs ih =>
    simp [splitAtLast, ih]

/-- A hit of `splitAtLast` implies membership. -/
theorem mem_of_splitAtLast_eq_some (c : Char) (l : List Char)
    (p : List Char × List Char) (h : splitAtLast c l = some p) : c ∈ l := by
  induction l generalizing p with
  | nil => simp [splitAtLast] at h
  | cons x xs ih =>
    rw [splitAtLast] at h
    rcases hxs : splitAtLast c xs with _ | q
    · rw [hxs] at h
      by_cases hx : x = c
      · exact hx ▸ List.mem_cons_self x xs
      · simp [hx] at h
    · exact List.mem_cons_of_mem x (ih q hxs)

/-- The predicate `.` of the regex crate: any character but a newline. -/
theorem notNewline_of_ne (x : Char) (h : x ≠ '\n') :
    (fun c => decide (c ≠ '\n')) x = true := by
  simp [h]

/-- A successful greedy attempt after `(`: if the text after the `(` is
`mid ++ ')' :: post` where `mid` is non-empty and newline-free, and no `)`
occurs in `post` before its first newline, the group is exactly `mid`. -/
theorem matchGroupAfterParen_eq_some (mid post : List Char) (hmid : mid ≠ [])
    (hnl : ∀ x ∈ mid, x ≠ '\n')
    (hpost : ')' ∉ post.takeWhile (fun c => c ≠ '\n')) :
    matchGroupAfterParen (mid ++ ')' :: post) = some mid := by
  have hrun : (mid ++ ')' :: post).takeWhile (fun c => decide (c ≠ '\n')) =
      mid ++ ')' :: post.takeWhile (fun c => decide (c ≠ '\n')) := by
    rw [List.takeWhile_append_of_pos]
    · rw [List.takeWhile_cons_of_pos]
      decide
    · intro a ha
      exact notNewline_of_ne a (hnl a ha)
  rw [matchGroupAfterParen]
  rw [hrun, splitAtLast_append ')' mid _ hpost]
  simp [hmid]

/-- A successful greedy attempt yields a non-empty group (the `.+`). -/
theorem matchGroupAfterParen_ne_nil (rest mid : List Char)
    (h : matchGroupAfterParen rest = some mid) : mid ≠ [] := by
  rw [matchGroupAfterParen] at h
  rcases hsp : splitAtLast ')' (rest.takeWhile fun c => decide (c ≠ '\n')) with _ | mp
  · rw [hsp] at h
    simp at h
  · rw [hsp] at h
    by_cases hnil : mp.1 = []
    · simp [hnil] at h
    · simp [hnil] at h
      exact h ▸ hnil

/-- A failed attempt: no `)` after the `(`, no match at this position. -/
theorem matchGroupAfterParen_eq_none (rest : List Char) (h : ')' ∉ rest) :
    matchGroupAfterParen rest = none := by
  rw [matchGroupAfterParen]
  have hrun : ')' ∉ rest.takeWhile (fun c => decide (c ≠ '\n')) := fun hm =>
    h ((List.takeWhile_sublist _).mem hm)
  rw [splitAtLast_eq_none_of_not_mem ')' _ hrun]

/-- The leftmost-first scan succeeds on a name of the split shape
`pre ++ '(' :: mid ++ ')' :: post` when `pre` holds no earlier `(` and the
greedy conditions of the group hold. -/
theorem accountNameCore_append_group (pre mid post : List Char)
    (hpre : '(' ∉ pre) (hmid : mid ≠ []) (hnl : ∀ x ∈ mid, x ≠ '\n')
    (hpost : ')' ∉ post.takeWhile (fun c => c ≠ '\n')) :
    accountNameCore (pre ++ '(' :: (mid ++ ')' :: post)) = some mid := by
  induction pre with
  | nil =>
    rw [List.nil_append, accountNameCore]
    simp [matchGroupAfterParen_eq_some mid post hmid hnl hpost]
  | cons x xs ih =>
    have hx : ¬x = '(' := fun hxc => hpre (hxc ▸ List.mem_cons_self x xs)
    rw [List.cons_append, accountNameCore]
    simp only [hx, if_false]
    exact ih fun hm => hpre (List.mem_cons_of_mem x hm)

/-- No `(` in the name: the scan fails. -/
theorem accountNameCore_eq_none_of_no_lparen (cs : List Char) (h : '(' ∉ cs) :
    accountNameCore cs = none := by
  induction cs with
  | nil => rfl
  | cons x xs ih =>
    have hx : ¬x = '(' := fun hxc => h (hxc ▸ List.mem_cons_self x xs)
    rw [accountNameCore]
    simp only [hx, if_false]
    exact ih fun hm => h (List.mem_cons_of_mem x hm)

/-- No `)` in the name: the scan fails. -/
theorem accountNameCore_eq_none_of_no_rparen (cs : List Char) (h : ')' ∉ cs) :
    accountNameCore cs = none := by
  induction cs with
  | nil => rfl
  | cons x xs ih =>
    have hxs : ')' ∉ xs := fun hm => h (List.mem_cons_of_mem x hm)
    rw [accountNameCore]
    by_cases hx : x = '('
    · simp only [hx, if_true]
      rw [matchGroupAfterParen_eq_none xs hxs]
      exact ih hxs
    · simp only [hx, if_false]
      exact ih hxs

/-- Any group the scan returns is non-empty. -/
theorem accountNameCore_some_ne_nil (cs mid : List Char)
    (h : accountNameCore cs = some mid) : mid ≠ [] := by
  induction cs generalizing mid with
  | nil => simp [accountNameCore] at h
  | cons x xs ih =>
    rw [accountNameCore] at h
    by_cases hx : x = '('
    · simp only [hx, if_true] at h
      rcases hm : matchGroupAfterParen xs with _ | m
      · rw [hm] at h
        exact ih mid h
      · rw [hm] at h
        injection h with h
        exact h ▸ matchGroupAfterParen_ne_nil xs m hm
    · simp only [hx, if_false] at h
      exact ih mid h

example : (mkInst "12 Dev (A) (B)").account_name = some "A) (B" := by decide
example : (mkInst "12 Dev (A) (B)").account_id = some "12" := by decide
example : (mkInst "Shared Services").account_name = none := by decide
example : (mkInst "Shared Services").account_id = none := by decide
example : (mkInst "()").account_name = none := by decide
example : (mkInst "123456789012 (Production Account)").account_id = some "123456789012" := by
  decide
example : (mkInst "a) (b").account_name = none := by decide
example : (mkInst "()\n(b)").account_name = some "b" := by decide
example : (mkInst "١٢x").account_id = some "١٢" := by decide
example : (mkInst "1١2x").account_id = some "1١2" := by decide

/-- Every element kept by `takeWhile` satisfies the predicate. -/
theorem of_mem_takeWhile (p : α → Bool) (l : List α) (x : α)
    (h : x ∈ l.takeWhile p) : p x = true := by
  induction l with
  | nil => simp [List.takeWhile] at h
  | cons y ys ih =>
    rw [List.takeWhile_cons] at h
    by_cases hy : p y = true
    · simp only [hy, if_true] at h
      rcases List.mem_cons.mp h with heq | hmem
      · exact heq ▸ hy
      · exact ih hmem
    · simp [hy] at h

/-- The first element surviving `dropWhile` falsifies the predicate. -/
theorem not_of_head?_dropWhile (p : α → Bool) (l : List α) (x : α)
    (h : (l.dropWhile p).head? = some x) : p x = false := by
  induction l with
  | nil => simp [List.dropWhile] at h
  | cons y ys ih =>
    rw [List.dropWhile_cons] at h
    by_cases hy : p y = true
    · simp only [hy, if_true] at h
      exact ih h
    · simp only [hy, if_false, List.head?_cons] at h
      injection h with h
      exact h ▸ Bool.eq_false_iff.mpr hy

/-- Dropping the kept run leaves a list whose head (if any) falsifies the
predicate, so a second `takeWhile` keeps nothing. -/
theorem takeWhile_dropWhile_self (p : α → Bool) (l : List α) :
    (l.dropWhile p).takeWhile p = [] := by
  rcases hd : l.dropWhile p with _ | ⟨d, ds⟩
  · rfl
  · have hpd : p d = false := not_of_head?_dropWhile p l d (by rw [hd, List.head?_cons])
    rw [List.takeWhile_cons_of_neg]
    simp [hpd]

/-- A miss of `splitAtLast` implies non-membership. -/
theorem not_mem_of_splitAtLast_eq_none (c : Char) (l : List Char)
    (h : splitAtLast c l = none) : c ∉ l := by
  induction l with
  | nil => simp
  | cons x xs ih =>
    rw [splitAtLast] at h
    rcases hxs : splitAtLast c xs with _ | q
    · rw [hxs] at h
      by_cases hx : x = c
      · rw [if_pos hx] at h
        exact Option.noConfusion h
      · intro hm
        rcases List.mem_cons.mp hm with hm | hm
        · exact hx hm.symm
        · exact ih hxs hm
    · rw [hxs] at h
      exact Option.noConfusion h

/-- Soundness of `splitAtLast`: a hit decomposes the list at its last
occurrence of the character. -/
theorem splitAtLast_sound (c : Char) (l a b : List Char)
    (h : splitAtLast c l = some (a, b)) : l = a ++ c :: b ∧ c ∉ b := by
  induction l generalizing a b with
  | nil => exact Option.noConfusion h
  | cons x xs ih =>
    rw [splitAtLast] at h
    rcases hxs : splitAtLast c xs with _ | q
    · rw [hxs] at h
      by_cases hx : x = c
      · rw [if_pos hx] at h
        injection h with h
        injection h with h1 h2
        subst h1
        subst h2
        exact ⟨by simp [hx], not_mem_of_splitAtLast_eq_none c xs hxs⟩
      · rw [if_neg hx] at h
        exact Option.noConfusion h
    · obtain ⟨q1, q2⟩ := q
      rw [hxs] at h
      injection h with h
      injection h with h1 h2
      subst h1
      subst h2
      obtain ⟨he, hm⟩ := ih q1 q2 hxs
      exact ⟨by rw [he]; rfl, hm⟩

/-- Completeness direction: a successful greedy attempt exhibits a group
in the specification-level sense. -/
theorem hasGroup_of_matchGroupAfterParen_eq_some (rest m : List Char)
    (h : matchGroupAfterParen rest = some m) : HasGroup rest := by
  rw [matchGroupAfterParen] at h
  rcases hsp : splitAtLast ')' (rest.takeWhile fun c => decide (c ≠ '\n')) with _ | mp
  · rw [hsp] at h
    exact Option.noConfusion h
  · obtain ⟨m1, m2⟩ := mp
    rw [hsp] at h
    replace h : (if m1 = [] then (none : Option (List Char)) else some m1) = some m := h
    by_cases hnil : m1 = []
    · rw [if_pos hnil] at h
      exact Option.noConfusion h
    · rw [if_neg hnil] at h
      injection h with h
      subst h
      obtain ⟨heq, hnm⟩ := splitAtLast_sound ')' _ m1 m2 hsp
      refine ⟨m1, m2 ++ rest.dropWhile (fun c => decide (c ≠ '\n')), ?_, hnil, ?_, ?_⟩
      · conv_lhs => rw [← List.takeWhile_append_dropWhile (fun c => decide (c ≠ '\n')) rest]
        rw [heq]
        simp
      · intro x hx
        have hxw : x ∈ rest.takeWhile (fun c => decide (c ≠ '\n')) := by
          rw [heq]
          exact List.mem_append_left _ hx
        have hb := of_mem_takeWhile _ rest x hxw
        simpa using hb
      · rw [List.takeWhile_append_of_pos]
        · rw [takeWhile_dropWhile_self]
          simpa using hnm
        · intro x hx
          have hxw : x ∈ rest.takeWhile (fun c => decide (c ≠ '\n')) := by
            rw [heq]
            exact List.mem_append_right _ (List.mem_cons_of_mem _ hx)
          exact of_mem_takeWhile _ rest x hxw

/-- Contrapositive: where no group starts, the greedy attempt misses. -/
theorem matchGroupAfterParen_eq_none_of_not_hasGroup (rest : List Char)
    (h : ¬ HasGroup rest) : matchGroupAfterParen rest = none := by
  rcases hm : matchGroupAfterParen rest with _ | m
  · rfl
  · exact absurd (hasGroup_of_matchGroupAfterParen_eq_some rest m hm) h

/-- The leftmost-first scan on a name split at its first viable `(`: every
earlier `(` starts no group, and the greedy conditions hold at this one,
so the scan returns exactly `mid`. -/
theorem accountNameCore_first_viable (pre mid post : List Char)
    (hviable : ∀ pre1 rest1, pre = pre1 ++ '(' :: rest1 →
       ¬ HasGroup (rest1 ++ '(' :: (mid ++ ')' :: post)))
    (hmid : mid ≠ []) (hnl : ∀ x ∈ mid, x ≠ '\n')
    (hpost : ')' ∉ post.takeWhile (fun c => c ≠ '\n')) :
    accountNameCore (pre ++ '(' :: (mid ++ ')' :: post)) = some mid := by
  induction pre with
  | nil =>
    rw [List.nil_append, accountNameCore]
    simp [matchGroupAfterParen_eq_some mid post hmid hnl hpost]
  | cons x xs ih =>
    rw [List.cons_append, accountNameCore]
    by_cases hx : x = '('
    · rw [if_pos hx]
      have hng : ¬ HasGroup (xs ++ '(' :: (mid ++ ')' :: post)) :=
        hviable [] xs (by simp [hx])
      rw [matchGroupAfterParen_eq_none_of_not_hasGroup _ hng]
      exact ih fun pre1 rest1 h1 => hviable (x :: pre1) rest1 (by simp [h1])
    · rw [if_neg hx]
      exact ih fun pre1 rest1 h1 => hviable (x :: pre1) rest1 (by simp [h1])

/-- If no position of the name starts a group, the scan returns none. -/
theorem accountNameCore_eq_none_of_no_viable (cs : List Char)
    (h : ∀ pre rest, cs = pre ++ '(' :: rest → ¬ HasGroup rest) :
    accountNameCore cs = none := by
  induction cs with
  | nil => rfl
  | cons x xs ih =>
    rw [accountNameCore]
    by_cases hx : x = '('
    · rw [if_pos hx]
      rw [matchGroupAfterParen_eq_none_of_not_hasGroup _ (h [] xs (by simp [hx]))]
      exact ih fun pre rest h1 => h (x :: pre) rest (by simp [h1])
    · rw [if_neg hx]
      exact ih fun pre rest h1 => h (x :: pre) rest (by simp [h1])

/-- C1: the claim states that for a name with several parenthesized groups
`account_name()` returns the first group only, `"A"` for the name
`"12 Dev (A) (B)"`.  The pattern `\((.+)\)` is greedy, so the capture runs
from the first `(` to the last `)`: the code returns `"A) (B"`, not `"A"`. -/
theorem C1_counterexample :
    (mkInst "12 Dev (A) (B)").account_name = some "A) (B" ∧
    (mkInst "12 Dev (A) (B)").account_name ≠ some "A" := by
  exact ⟨by decide, by decide⟩

/-- C1 (amended): for every AppInstance whose name splits as
`pre ++ "(" ++ mid ++ ")" ++ post` at its first viable `(` — no `(` inside
`pre` starts a group — with `mid` non-empty and newline-free and no `)` in
`post` before a newline, `account_name()` returns `mid`: the greedy match
from that `(` to the last `)` reachable without crossing a newline; in
particular for `"12 Dev (A) (B)"` it returns `"A) (B"`.  For a name in
which no position starts a parenthesized group it returns none. -/
theorem C1_amended_greedy_capture :
    ((mkInst "12 Dev (A) (B)").account_name = some "A) (B") ∧
    (∀ (inst : AppInstance) (pre mid post : List Char),
       inst.name.toList = pre ++ '(' :: (mid ++ ')' :: post) →
       (∀ pre1 rest1, pre = pre1 ++ '(' :: rest1 →
          ¬ HasGroup (rest1 ++ '(' :: (mid ++ ')' :: post))) →
       mid ≠ [] → (∀ x ∈ mid, x ≠ '\n') →
       ')' ∉ post.takeWhile (fun c => c ≠ '\n') →
       inst.account_name = some (String.mk mid)) ∧
    (∀ inst : AppInstance,
       (∀ pre rest, inst.name.toList = pre ++ '(' :: rest → ¬ HasGroup rest) →
       inst.account_name = none) := by
  refine ⟨by decide, ?_, ?_⟩
  · intro inst pre mid post heq hviable hmid hnl hpost
    rw [AppInstance.account_name, heq,
      accountNameCore_first_viable pre mid post hviable hmid hnl hpost]
    rfl
  · intro inst h
    rw [AppInstance.account_name, accountNameCore_eq_none_of_no_viable _ h]
    rfl

/-- Witness for C1 (amended): the first-viable clause applied to the
concrete name `"12 Dev (A) (B)"` (whose `pre` holds no `(` at all) and the
no-group clause applied to `"Shared Services"`. -/
theorem C1_amended_witness :
    (mkInst "12 Dev (A) (B)").account_name = some "A) (B" ∧
    (mkInst "Shared Services").account_name = none := by
  constructor
  · have hviable : ∀ pre1 rest1, "12 Dev ".toList = pre1 ++ '(' :: rest1 →
        ¬ HasGroup (rest1 ++ '(' :: ("A) (B".toList ++ ')' :: [])) := by
      intro pre1 rest1 h1
      have hmem : '(' ∈ "12 Dev ".toList := by
        rw [h1]
        exact List.mem_append_right _ (List.mem_cons_self _ _)
      exact absurd hmem (by decide)
    have h := C1_amended_greedy_capture.2.1 (mkInst "12 Dev (A) (B)")
      "12 Dev ".toList "A) (B".toList [] (by decide) hviable (by decide)
      (by decide) (by decide)
    exact h
  · have hng : ∀ pre rest, (mkInst "Shared Services").name.toList =
        pre ++ '(' :: rest → ¬ HasGroup rest := by
      intro pre rest h1
      have hmem : '(' ∈ (mkInst "Shared Services").name.toList := by
        rw [h1]
        exact List.mem_append_right _ (List.mem_cons_self _ _)
      exact absurd hmem (by decide)
    exact C1_amended_greedy_capture.2.2 (mkInst "Shared Services") hng

/-- C7: `account_id()` returns exactly the maximal run of leading decimal
digits (class `\d`, Unicode Nd) when the name starts with such a digit,
and none otherwise; both parsers return none on `"Shared Services"`. -/
theorem C7_account_id_leading_digits :
    (∀ (inst : AppInstance) (s : String),
       inst.account_id = some s ↔
         ∃ ds rest, inst.name.toList = ds ++ rest ∧ ds ≠ [] ∧
           (∀ c ∈ ds, isNd c = true) ∧
           (∀ c, rest.head? = some c → isNd c = false) ∧
           s = String.mk ds) ∧
    (mkInst "Shared Services").account_id = none ∧
    (mkInst "Shared Services").account_name = none := by
  refine ⟨?_, by decide, by decide⟩
  intro inst s
  constructor
  · intro h
    rw [AppInstance.account_id] at h
    by_cases hnil : inst.name.toList.takeWhile isNd = []
    · rw [if_pos hnil] at h
      exact Option.noConfusion h
    · rw [if_neg hnil] at h
      injection h with h
      refine ⟨inst.name.toList.takeWhile isNd,
        inst.name.toList.dropWhile isNd,
        (List.takeWhile_append_dropWhile isNd inst.name.toList).symm,
        hnil, ?_, ?_, h.symm⟩
      · intro c hc
        exact of_mem_takeWhile isNd inst.name.toList c hc
      · intro c hc
        exact not_of_head?_dropWhile isNd inst.name.toList c hc
  · rintro ⟨ds, rest, heq, hne, hds, hrest, rfl⟩
    have htw : inst.name.toList.takeWhile isNd = ds := by
      rw [heq, List.takeWhile_append_of_pos]
      · cases rest with
        | nil => simp
        | cons r rs =>
          rw [List.takeWhile_cons_of_neg]
          · simp
          · simp [hrest r List.head?_cons]
      · intro a ha
        exact hds a ha
    rw [AppInstance.account_id, htw]
    simp [hne]

/-- C9: whenever `account_name()` returns a string it is non-empty (the
`.+` of the pattern needs at least one character), and the name `"()"`
yields none rather than the empty string. -/
theorem C9_group_nonempty :
    (∀ (inst : AppInstance) (s : String), inst.account_name = some s → s ≠ "") ∧
    (mkInst "()").account_name = none := by
  refine ⟨?_, by decide⟩
  intro inst s h
  rw [AppInstance.account_name] at h
  rcases hc : accountNameCore inst.name.toList with _ | mid
  · rw [hc] at h
    simp at h
  · rw [hc] at h
    simp only [Option.map_some', Option.some.injEq] at h
    intro hs
    apply accountNameCore_some_ne_nil _ _ hc
    have hmid : String.mk mid = "" := hs ▸ h
    exact congrArg String.data hmid

/-- Witness for C9: the non-emptiness clause applied to `"1 (A) x"`. -/
theorem C9_witness :
    (mkInst "1 (A) x").account_name = some "A" ∧ ("A" : String) ≠ "" := by
  have h1 : (mkInst "1 (A) x").account_name = some "A" := by decide
  exact ⟨h1, C9_group_nonempty.1 (mkInst "1 (A) x") "A" h1⟩

/-- Modelled from the spec: the success class of an HTTP status (2xx),
which the spec's "non-success status" refers to.  The code in `sso.rs`
itself never inspects the status of any response. -/
def isSuccessStatus (s : Nat) : Bool :=
  200 ≤ s ∧ s < 300

/-- A well-formed credential-exchange body with `expiration` in epoch
milliseconds equal to `1700000000000`. -/
def sampleCredsJson : Json :=
  Json.obj [("roleCredentials", Json.obj
    [("accessKeyId", Json.str "AKID"), ("secretAccessKey", Json.str "SK"),
     ("sessionToken", Json.str "ST"), ("expiration", Json.num 1700000000000)])]

/-- The credentials value the client builds from `sampleCredsJson`. -/
def sampleCreds : AwsCredentials :=
  ⟨"AKID", "SK", some "ST", some ⟨1700000000000 * 1000000⟩, "oktaws"⟩

/-- A profile entry on the wire, with `relayState` absent. -/
def sampleProfileJson (i : String) : Json :=
  Json.obj [("id", Json.str i), ("name", Json.str "n"),
    ("description", Json.str "d"), ("url", Json.str "u"),
    ("protocol", Json.str "saml")]

/-- The decoded form of `sampleProfileJson`. -/
def sampleProfile (i : String) : Profile := ⟨i, "n", "d", "u", "saml", none⟩

/-- A two-element profile page, to observe order preservation. -/
def twoProfilesPageJson : Json :=
  Json.obj [("result", Json.arr [sampleProfileJson "p1", sampleProfileJson "p2"])]

/-- C2: the claim states any non-success HTTP status fails the operation.
The code never inspects the status: a 500 response whose body happens to
decode as a page envelope yields a successful (empty) listing. -/
theorem C2_counterexample :
    isSuccessStatus 500 = false ∧
    Client.app_instances ⟨"tok", "https://portal.sso.eu-west-1.amazonaws.com"⟩
        ⟨500, some (Json.obj [("result", Json.arr [])])⟩ = Except.ok [] := by
  exact ⟨rfl, rfl⟩

/-- C2 (amended): the operations never branch on the HTTP status — the
outcome depends only on the response body, so a non-success status with a
decodable body succeeds and one with an undecodable body fails as a decode
failure that does not carry the status. -/
theorem C2_amended_status_ignored :
    (∀ (o a r : String) (s1 s2 : Nat) (b : Option Json),
       Client.new o a r ⟨s1, b⟩ = Client.new o a r ⟨s2, b⟩) ∧
    (∀ (c : Client) (s1 s2 : Nat) (b : Option Json),
       Client.app_instances c ⟨s1, b⟩ = Client.app_instances c ⟨s2, b⟩) ∧
    (∀ (c : Client) (s1 s2 : Nat) (b : Option Json),
       Client.profiles c ⟨s1, b⟩ = Client.profiles c ⟨s2, b⟩) ∧
    (∀ (c : Client) (aid rn : String) (s1 s2 : Nat) (b : Option Json),
       Client.credentials c aid rn ⟨s1, b⟩ = Client.credentials c aid rn ⟨s2, b⟩) := by
  refine ⟨?_, ?_, ?_, ?_⟩ <;> intros <;> rfl

/-- C3: the claim states a constructed client's token is never empty.
serde accepts `{"token": ""}`, so construction succeeds with an empty
token. -/
theorem C3_counterexample :
    Client.new "org" "code" "eu-west-1"
        ⟨200, some (Json.obj [("token", Json.str "")])⟩ =
      Except.ok ⟨"", "https://portal.sso.eu-west-1.amazonaws.com"⟩ := by
  rfl

/-- C3 (amended): construction stores the response's token verbatim —
whenever the body decodes as the token envelope, the client holds exactly
that token (which may be the empty string) and the region-derived base
URL. -/
theorem C3_amended_token_verbatim :
    ∀ (o a region : String) (st : Nat) (j : Json) (t : String),
      decodeSsoTokenResponse j = some t →
      Client.new o a region ⟨st, some j⟩ =
        Except.ok ⟨t, "https://portal.sso." ++ region ++ ".amazonaws.com"⟩ := by
  intro o a region st j t h
  simp only [Client.new, h]

/-- Witness for C3 (amended): a concrete token-exchange body. -/
theorem C3_amended_witness :
    decodeSsoTokenResponse (Json.obj [("token", Json.str "tok0")]) = some "tok0" ∧
    Client.new "org" "code" "us-east-1"
        ⟨200, some (Json.obj [("token", Json.str "tok0")])⟩ =
      Except.ok ⟨"tok0", "https://portal.sso.us-east-1.amazonaws.com"⟩ := by
  refine ⟨rfl, ?_⟩
  exact C3_amended_token_verbatim "org" "code" "us-east-1" 200
    (Json.obj [("token", Json.str "tok0")]) "tok0" rfl

/-- C4: whenever the credential-exchange body decodes with `expiration`
equal to `m` epoch milliseconds, the expiry of the returned credentials is
the Unix epoch plus `m` milliseconds; for `m = 1700000000000` this is
exactly 1,700,000,000 seconds after the epoch. -/
theorem C4_expiration_epoch_millis :
    (∀ (c : Client) (aid rn : String) (st : Nat) (j : Json) (rc : CredentialsWire),
       decodeRoleCredentials j = some rc →
       ∃ cred, Client.credentials c aid rn ⟨st, some j⟩ = Except.ok cred ∧
         cred.expires_after = some (epochPlusMillis rc.expiration)) ∧
    (∀ (c : Client) (aid rn : String) (st : Nat) (j : Json) (rc : CredentialsWire),
       decodeRoleCredentials j = some rc → rc.expiration = 1700000000000 →
       ∃ cred, Client.credentials c aid rn ⟨st, some j⟩ = Except.ok cred ∧
         cred.expires_after = some ⟨1700000000 * 1000000000⟩) := by
  constructor
  · intro c aid rn st j rc h
    refine ⟨⟨rc.access_key_id, rc.secret_access_key, some rc.session_token,
      some (epochPlusMillis rc.expiration), "oktaws"⟩, ?_, rfl⟩
    simp only [Client.credentials, h]
  · intro c aid rn st j rc h hm
    refine ⟨⟨rc.access_key_id, rc.secret_access_key, some rc.session_token,
      some (epochPlusMillis rc.expiration), "oktaws"⟩, ?_, ?_⟩
    · simp only [Client.credentials, h]
    · simp only [epochPlusMillis, hm]

/-- Witness for C4: the sample body with `expiration = 1700000000000`. -/
theorem C4_witness :
    decodeRoleCredentials sampleCredsJson = some ⟨"AKID", "SK", "ST", 1700000000000⟩ ∧
    ∃ cred, Client.credentials ⟨"tok", "base"⟩ "acct" "role"
        ⟨200, some sampleCredsJson⟩ = Except.ok cred ∧
      cred.expires_after = some ⟨1700000000 * 1000000000⟩ := by
  refine ⟨rfl, ?_⟩
  exact C4_expiration_epoch_millis.2 ⟨"tok", "base"⟩ "acct" "role" 200
    sampleCredsJson ⟨"AKID", "SK", "ST", 1700000000000⟩ rfl rfl

/-- C5: a client constructed from a token-exchange body `{token: T}`
sends both bearer-header spellings, each with value exactly `T`, on the
requests of `app_instances`, `profiles` and `credentials`. -/
theorem C5_dual_bearer_headers :
    ∀ (o a region iid aid rn : String) (st : Nat) (j : Json) (T : String) (c : Client),
      decodeSsoTokenResponse j = some T →
      Client.new o a region ⟨st, some j⟩ = Except.ok c →
      c.appInstancesRequest.headers =
        [("x-amz-sso_bearer_token", T), ("x-amz-sso-bearer-token", T)] ∧
      (c.profilesRequest iid).headers =
        [("x-amz-sso_bearer_token", T), ("x-amz-sso-bearer-token", T)] ∧
      (c.credentialsRequest aid rn).headers =
        [("x-amz-sso_bearer_token", T), ("x-amz-sso-bearer-token", T)] := by
  intro o a region iid aid rn st j T c hdec hnew
  simp only [Client.new, hdec] at hnew
  injection hnew with hnew
  subst hnew
  exact ⟨rfl, rfl, rfl⟩

/-- Witness for C5: a concrete construction followed by the three header
inspections. -/
theorem C5_witness :
    decodeSsoTokenResponse (Json.obj [("token", Json.str "T0")]) = some "T0" ∧
    Client.new "org" "code" "us-east-1"
        ⟨200, some (Json.obj [("token", Json.str "T0")])⟩ =
      Except.ok ⟨"T0", "https://portal.sso.us-east-1.amazonaws.com"⟩ ∧
    (Client.appInstancesRequest
        ⟨"T0", "https://portal.sso.us-east-1.amazonaws.com"⟩).headers =
      [("x-amz-sso_bearer_token", "T0"), ("x-amz-sso-bearer-token", "T0")] := by
  refine ⟨rfl, rfl, ?_⟩
  exact (C5_dual_bearer_headers "org" "code" "us-east-1" "iid" "aid" "rn" 200
    (Json.obj [("token", Json.str "T0")]) "T0"
    ⟨"T0", "https://portal.sso.us-east-1.amazonaws.com"⟩ rfl rfl).1

/-- C6: whenever a list body decodes as a page envelope, the operation
returns exactly the envelope's `result` sequence — empty stays empty (not
an error) and wire order is preserved exactly. -/
theorem C6_wire_order :
    (∀ (c : Client) (st : Nat) (j : Json) (page : Page AppInstance),
       decodePage decodeAppInstance j = some page →
       Client.app_instances c ⟨st, some j⟩ = Except.ok page.result) ∧
    (∀ (c : Client) (st : Nat) (j : Json) (page : Page Profile),
       decodePage decodeProfile j = some page →
       Client.profiles c ⟨st, some j⟩ = Except.ok page.result) := by
  constructor
  · intro c st j page h
    simp only [Client.app_instances, h]
  · intro c st j page h
    simp only [Client.profiles, h]

/-- Witness for C6: an empty page yields `ok []`; a two-element profile
page comes back in wire order. -/
theorem C6_witness :
    (decodePage decodeAppInstance (Json.obj [("result", Json.arr [])]) =
        some ⟨none, []⟩ ∧
      Client.app_instances ⟨"tok", "base"⟩
        ⟨200, some (Json.obj [("result", Json.arr [])])⟩ = Except.ok []) ∧
    (decodePage decodeProfile twoProfilesPageJson =
        some ⟨none, [sampleProfile "p1", sampleProfile "p2"]⟩ ∧
      Client.profiles ⟨"tok", "base"⟩ ⟨200, some twoProfilesPageJson⟩ =
        Except.ok [sampleProfile "p1", sampleProfile "p2"]) := by
  refine ⟨⟨rfl, ?_⟩, ⟨rfl, ?_⟩⟩
  · exact C6_wire_order.1 ⟨"tok", "base"⟩ 200 _ ⟨none, []⟩ rfl
  · exact C6_wire_order.2 ⟨"tok", "base"⟩ 200 _
      ⟨none, [sampleProfile "p1", sampleProfile "p2"]⟩ rfl

/-- C8: a body that is not valid JSON, or valid JSON that does not decode
as the expected envelope (e.g. a required field missing), makes the
operation fail with the decode-failure kind — no default is returned. -/
theorem C8_decode_failure :
    (∀ (o a r : String) (st : Nat),
       Client.new o a r ⟨st, none⟩ = Except.error OpError.decode) ∧
    (∀ (c : Client) (st : Nat),
       Client.app_instances c ⟨st, none⟩ = Except.error OpError.decode) ∧
    (∀ (c : Client) (st : Nat),
       Client.profiles c ⟨st, none⟩ = Except.error OpError.decode) ∧
    (∀ (c : Client) (aid rn : String) (st : Nat),
       Client.credentials c aid rn ⟨st, none⟩ = Except.error OpError.decode) ∧
    (∀ (o a r : String) (st : Nat) (j : Json), decodeSsoTokenResponse j = none →
       Client.new o a r ⟨st, some j⟩ = Except.error OpError.decode) ∧
    (∀ (c : Client) (st : Nat) (j : Json), decodePage decodeAppInstance j = none →
       Client.app_instances c ⟨st, some j⟩ = Except.error OpError.decode) ∧
    (∀ (c : Client) (st : Nat) (j : Json), decodePage decodeProfile j = none →
       Client.profiles c ⟨st, some j⟩ = Except.error OpError.decode) ∧
    (∀ (c : Client) (aid rn : String) (st : Nat) (j : Json),
       decodeRoleCredentials j = none →
       Client.credentials c aid rn ⟨st, some j⟩ = Except.error OpError.decode) := by
  refine ⟨?_, ?_, ?_, ?_, ?_, ?_, ?_, ?_⟩
  · intros; rfl
  · intros; rfl
  · intros; rfl
  · intros; rfl
  · intro o a r st j h
    simp only [Client.new, h]
  · intro c st j h
    simp only [Client.app_instances, h]
  · intro c st j h
    simp only [Client.profiles, h]
  · intro c aid rn st j h
    simp only [Client.credentials, h]

/-- Witness for C8: an object missing the required `token` field fails
construction, and an object missing the required `result` field fails the
listing. -/
theorem C8_witness :
    decodeSsoTokenResponse (Json.obj []) = none ∧
    Client.new "org" "code" "r" ⟨200, some (Json.obj [])⟩ =
      Except.error OpError.decode ∧
    decodePage decodeAppInstance (Json.obj [("paginationToken", Json.null)]) = none ∧
    Client.app_instances ⟨"tok", "base"⟩
        ⟨200, some (Json.obj [("paginationToken", Json.null)])⟩ =
      Except.error OpError.decode := by
  refine ⟨rfl, ?_, rfl, ?_⟩
  · exact C8_decode_failure.2.2.2.2.1 "org" "code" "r" 200 (Json.obj []) rfl
  · exact C8_decode_failure.2.2.2.2.2.1 ⟨"tok", "base"⟩ 200
      (Json.obj [("paginationToken", Json.null)]) rfl

/-- C10: every successfully decoded credential exchange yields credentials
whose session token is present, whose expiry is present, and whose
provider name is the fixed string `"oktaws"`. -/
theorem C10_credentials_fields :
    ∀ (c : Client) (aid rn : String) (resp : HttpResponse) (cred : AwsCredentials),
      Client.credentials c aid rn resp = Except.ok cred →
      (∃ t, cred.session_token = some t) ∧
      (∃ e, cred.expires_after = some e) ∧
      cred.provider_name = "oktaws" := by
  intro c aid rn resp cred h
  rcases resp with ⟨st, b⟩
  rcases b with _ | j
  · simp only [Client.credentials] at h
    exact Except.noConfusion h
  · simp only [Client.credentials] at h
    rcases hd : decodeRoleCredentials j with _ | rc
    · simp only [hd] at h
      exact Except.noConfusion h
    · simp only [hd] at h
      injection h with h
      subst h
      exact ⟨⟨rc.session_token, rfl⟩, ⟨epochPlusMillis rc.expiration, rfl⟩, rfl⟩

/-- Witness for C10: the sample credential exchange. -/
theorem C10_witness :
    Client.credentials ⟨"tok", "base"⟩ "acct" "role" ⟨200, some sampleCredsJson⟩ =
      Except.ok sampleCreds ∧
    (∃ t, sampleCreds.session_token = some t) ∧
    (∃ e, sampleCreds.expires_after = some e) ∧
    sampleCreds.provider_name = "oktaws" := by
  have h : Client.credentials ⟨"tok", "base"⟩ "acct" "role"
      ⟨200, some sampleCredsJson⟩ = Except.ok sampleCreds := rfl
  exact ⟨h, C10_credentials_fields ⟨"tok", "base"⟩ "acct" "role"
    ⟨200, some sampleCredsJson⟩ sampleCreds h⟩

end Oktaws
